import Mathlib

/-!
Verification of the candidate-job matching and scoring engine of the
Recruitment Screening Agent.  The repository ships the project
documentation, the SQL schema and the React frontend; the Python engine
itself (matcher.py) is not part of the source tree, so the scoring
components are modelled from the specification text (sections 4.1-4.7)
and checked against the documented algorithm, the schema constraints and
the frontend code.  All scores are rational numbers.
-/

/-- Maximum of two rationals, written with an explicit comparison so that
concrete instances reduce by the kernel. -/
def qmax (a b : ℚ) : ℚ := if a ≤ b then b else a

/-- Minimum of two rationals, written with an explicit comparison so that
concrete instances reduce by the kernel. -/
def qmin (a b : ℚ) : ℚ := if a ≤ b then a else b

/-- Clamp a rational to the interval [0,1], as every dimension scorer does. -/
def clamp01 (x : ℚ) : ℚ := qmax 0 (qmin 1 x)

/-- Lowercasing of one ASCII character. -/
def lowerChar (c : Char) : Char :=
  if c.isUpper then Char.ofNat (c.toNat + 32) else c

/-- Modelled from the spec: skill strings are normalized (lowercase, trim)
before comparison; the normal form is the list of characters. -/
def normSkill (s : String) : List Char :=
  (((s.toList.map lowerChar).dropWhile fun c => c == ' ').reverse.dropWhile
      fun c => c == ' ').reverse

/-- Boolean prefix test on character lists. -/
def prefixOfB : List Char → List Char → Bool
  | [], _ => true
  | _ :: _, [] => false
  | x :: xs, y :: ys => x == y && prefixOfB xs ys

/-- Boolean substring (contiguous sublist) test on character lists. -/
def infixOfB (a : List Char) : List Char → Bool
  | [] => a.isEmpty
  | y :: ys => prefixOfB a (y :: ys) || infixOfB a ys

/-- Modelled from the spec: a candidate skill matches a job skill if the
normalized strings are equal, or one contains the other as a substring
(fuzzy match). -/
def fuzzySkillMatch (a b : List Char) : Bool :=
  a == b || infixOfB a b || infixOfB b a

/-- Modelled from the spec: a job skill is satisfied when some candidate
skill fuzzy-matches it (both sides normalized). -/
def skillSatisfied (cand : List String) (s : String) : Bool :=
  cand.any fun c => fuzzySkillMatch (normSkill c) (normSkill s)

/-- Modelled from the spec: the job skills satisfied by the candidate. -/
def matchedSkills (cand job : List String) : List String :=
  job.filter (skillSatisfied cand)

/-- Modelled from the spec: the job skills not satisfied by the candidate. -/
def missingSkills (cand job : List String) : List String :=
  job.filter fun s => !(skillSatisfied cand s)

/-- Modelled from the spec (4.1, edge cases and testable properties): the
skill score.  An empty required set scores 1.0 regardless of the candidate;
otherwise the base is the matched fraction of required skills; with no
preferred skills declared the score is the base alone (so a candidate
covering all required skills scores 1.0, as the testable properties
demand); with preferred skills declared the score is
base*0.85 + preferred_bonus*0.15, clamped to [0,1]. -/
def skillScore (cand req pref : List String) : ℚ :=
  if req.isEmpty then 1
  else
    let base : ℚ := ((matchedSkills cand req).length : ℚ) / (req.length : ℚ)
    if pref.isEmpty then clamp01 base
    else
      let prefBonus : ℚ := ((matchedSkills cand pref).length : ℚ) / (pref.length : ℚ)
      clamp01 (base * (85/100) + prefBonus * (15/100))

/-- Modelled from the spec (4.2): the experience score.  Unknown experience
scores 0.1; years within the required range (or above an unbounded range's
minimum) score 1.0; overqualified scores max(0.6, 1 - 0.05*(years-max));
underqualified scores max(0.1, years/min) when min > 0, else 1.0. -/
def experienceScore (years : Option ℚ) (minY : ℚ) (maxY : Option ℚ) : ℚ :=
  match years with
  | none => 1/10
  | some y =>
    match maxY with
    | some mx =>
      if minY ≤ y ∧ y ≤ mx then 1
      else if mx < y then qmax (6/10) (1 - (5/100) * (y - mx))
      else if 0 < minY then qmax (1/10) (y / minY) else 1
    | none =>
      if minY ≤ y then 1
      else if 0 < minY then qmax (1/10) (y / minY) else 1

/-- Modelled from the spec (4.3): the ordinal degree hierarchy. -/
inductive Degree where
  | certificate
  | diploma
  | bachelor
  | master
  | phd
deriving DecidableEq

/-- Modelled from the spec (4.3): Certificate=1, Diploma=2, Bachelor=3,
Master=4, PhD=5. -/
def Degree.level : Degree → Nat
  | .certificate => 1
  | .diploma => 2
  | .bachelor => 3
  | .master => 4
  | .phd => 5

/-- Modelled from the spec (3): one education entry of a candidate
profile. -/
structure EducationEntry where
  degree : Degree
  field : String
  year : Nat
deriving DecidableEq

/-- Modelled from the spec (4.3): the candidate's effective level is the
maximum level among all education entries, 0 if none. -/
def candidateLevel (edu : List EducationEntry) : Nat :=
  (edu.map fun e => e.degree.level).foldr max 0

/-- Modelled from the spec (4.3): the education score.  Meeting or
exceeding the required level scores 1.0; exactly one level below scores
0.7; otherwise max(0.1, candidate_level/required_level) when the required
level is positive, else 1.0. -/
def educationScore (candLevel reqLevel : Nat) : ℚ :=
  if reqLevel ≤ candLevel then 1
  else if candLevel + 1 = reqLevel then 7/10
  else if 0 < reqLevel then qmax (1/10) ((candLevel : ℚ) / (reqLevel : ℚ)) else 1

/-- Modelled from the spec (3): the candidate profile fields consumed by
the scorers.  Absent experience and absent embedding are explicit. -/
structure CandidateProfile where
  skills : List String
  total_experience_years : Option ℚ
  education : List EducationEntry
  embedding : Option (List ℚ)

/-- Modelled from the spec (3): the job profile fields consumed by the
scorers.  An unbounded experience range has max_years = none. -/
structure JobProfile where
  required_skills : List String
  preferred_skills : List String
  min_years : ℚ
  max_years : Option ℚ
  min_education_level : Nat
  embedding : Option (List ℚ)

/-- Modelled from the spec (4.6): the configurable dimension weights. -/
structure Weights where
  skill : ℚ
  experience : ℚ
  education : ℚ
  semantic : ℚ

/-- Modelled from the spec (4.6): the aggregator takes the available
dimensions as (score, weight) pairs, divides each weight by the sum of
all weights, and combines; a zero weight sum falls back to the unweighted
mean of the available scores. -/
def aggregate (dims : List (ℚ × ℚ)) : ℚ :=
  let wsum := (dims.map Prod.snd).sum
  if wsum = 0 then (dims.map Prod.fst).sum / (dims.length : ℚ)
  else (dims.map fun p => p.1 * (p.2 / wsum)).sum

/-- Modelled from the spec (4.4): the raw cosine similarity of two real
embedding vectors is irrational in general, so it is kept as a parameter
rawCos of the pipeline; the semantic scorer clamps its value to [0,1].
When either embedding is absent the semantic dimension is omitted, which
redistributes its weight over the remaining dimensions through the
aggregator's normalization. -/
def matchDims (rawCos : List ℚ → List ℚ → ℚ) (c : CandidateProfile)
    (j : JobProfile) (w : Weights) : List (ℚ × ℚ) :=
  [(skillScore c.skills j.required_skills j.preferred_skills, w.skill),
   (experienceScore c.total_experience_years j.min_years j.max_years, w.experience),
   (educationScore (candidateLevel c.education) j.min_education_level, w.education)]
  ++ (match c.embedding, j.embedding with
      | some v1, some v2 => [(clamp01 (rawCos v1 v2), w.semantic)]
      | _, _ => [])

/-- Modelled from the spec (4.6): the overall score of one candidate-job
pair. -/
def overallScore (rawCos : List ℚ → List ℚ → ℚ) (c : CandidateProfile)
    (j : JobProfile) (w : Weights) : ℚ :=
  aggregate (matchDims rawCos c j w)

/-- Modelled from the spec (3): one scored result of a session before
ranks are assigned; the candidate index records insertion order. -/
structure ScoredResult where
  candidate : Nat
  overall_score : ℚ
deriving DecidableEq

/-- Modelled from the spec (4.7): stable insertion of a result into a
descending-sorted list: a result passes only strictly higher scores, so
earlier candidates stay ahead of equal scores. -/
def insertDesc (x : ScoredResult) : List ScoredResult → List ScoredResult
  | [] => [x]
  | y :: ys =>
    if y.overall_score ≤ x.overall_score then x :: y :: ys
    else y :: insertDesc x ys

/-- Modelled from the spec (4.7): stable sort of the results by overall
score, descending. -/
def sortDesc : List ScoredResult → List ScoredResult
  | [] => []
  | x :: xs => insertDesc x (sortDesc xs)

/-- Modelled from the spec (4.7): after the sort pass, 1-based ranks are
assigned in list order. -/
def rankResults (l : List ScoredResult) : List (Nat × ScoredResult) :=
  (sortDesc l).enum.map fun p => (p.1 + 1, p.2)

/-- Modelled from the spec (4.7) and the match_status ENUM of the SQL
schema: the four session states. -/
inductive MatchStatus where
  | pending
  | processing
  | completed
  | failed
deriving DecidableEq

/-- Modelled from the spec (4.7): the allowed status transitions. -/
def statusStep : MatchStatus → MatchStatus → Bool
  | .pending, .processing => true
  | .processing, .completed => true
  | .processing, .failed => true
  | _, _ => false

/-- Modelled from the spec (4.7): a session history starts at pending and
only follows allowed transitions. -/
def ValidTrace (t : List MatchStatus) : Prop :=
  t.head? = some .pending ∧ t.Chain' fun a b => statusStep a b = true

/-- Modelled from the spec (4.7, 7): the outcome of one session run. -/
structure SessionOutcome where
  status : MatchStatus
  ranked : List (Nat × ScoredResult)
  skipped : Nat

/-- Modelled from the spec (4.7): the session runner.  A session-level
problem (invalid job profile) fails the whole session with no results;
otherwise each candidate is scored, a per-candidate scoring failure is
recorded as skipped without failing the session, and the successes are
sorted and ranked. -/
def runSession (score : Nat → Option ℚ) (jobOk : Bool) (cands : List Nat) :
    SessionOutcome :=
  if !jobOk then { status := .failed, ranked := [], skipped := 0 }
  else
    let succ := cands.filterMap fun c => (score c).map fun s => ScoredResult.mk c s
    let skip := (cands.filter fun c => (score c).isNone).length
    { status := .completed, ranked := rankResults succ, skipped := skip }

/-- Configuration state of the Matching page, from MatchingPage.jsx: seven
named dimension weights plus the bias toggle. -/
structure MatchConfig where
  skill_weight : ℚ
  experience_weight : ℚ
  education_weight : ℚ
  title_weight : ℚ
  stability_weight : ℚ
  growth_weight : ℚ
  semantic_weight : ℚ
  bias_check : Bool
deriving DecidableEq

/-- The shipped default configuration of MatchingPage.jsx. -/
def defaultConfig : MatchConfig :=
  ⟨30/100, 20/100, 10/100, 10/100, 15/100, 15/100, 0, true⟩

/-- The page's totalWeight: the sum of the seven weight sliders. -/
def totalWeight (c : MatchConfig) : ℚ :=
  c.skill_weight + c.experience_weight + c.education_weight + c.title_weight +
    c.stability_weight + c.growth_weight + c.semantic_weight

/-- The page's matching mode toggle. -/
inductive MatchMode where
  | batch
  | individual
deriving DecidableEq

/-- The page state consulted by the Run button and the weight warning. -/
structure MatchingPageState where
  selectedJob : String
  matching : Bool
  matchMode : MatchMode
  selectedCandidates : List String
  config : MatchConfig

/-- The Run button's disabled condition from MatchingPage.jsx: no job
selected, a run in flight, or individual mode with no candidate
selected. -/
def runDisabled (s : MatchingPageState) : Bool :=
  s.selectedJob == "" || s.matching ||
    (decide (s.matchMode = .individual) && decide (s.selectedCandidates.length = 0))

/-- The weight warning chip of MatchingPage.jsx renders exactly when the
total weight differs from 1.0 by more than 0.01. -/
def weightWarning (c : MatchConfig) : Bool :=
  decide (abs (totalWeight c - 1) > 1/100)

/-- The payload built by matchApi.run in the API service layer. -/
structure RunPayload where
  job_id : String
  candidate_ids : Option (List String)
  config : Option MatchConfig
deriving DecidableEq

/-- matchApi.run from the API service layer: the payload carries the job
id, the optional candidate ids, and the configuration unchanged. -/
def matchRun (jobId : String) (candidateIds : Option (List String))
    (c : Option MatchConfig) : RunPayload :=
  ⟨jobId, candidateIds, c⟩

/-- handleRunMatching from MatchingPage.jsx: individual mode with a
nonempty selection sends those candidate ids, otherwise all candidates;
the config state is passed as is. -/
def handleRunPayload (s : MatchingPageState) : RunPayload :=
  matchRun s.selectedJob
    (if s.matchMode = .individual ∧ s.selectedCandidates.length > 0 then
      some s.selectedCandidates
    else none)
    (some s.config)

theorem qmax_eq_max (a b : ℚ) : qmax a b = max a b := (max_def a b).symm

theorem qmin_eq_min (a b : ℚ) : qmin a b = min a b := (min_def a b).symm

theorem clamp01_nonneg (x : ℚ) : 0 ≤ clamp01 x := by
  rw [clamp01, qmax_eq_max]; exact le_max_left 0 _

theorem clamp01_le_one (x : ℚ) : clamp01 x ≤ 1 := by
  rw [clamp01, qmax_eq_max, qmin_eq_min]
  exact max_le zero_le_one (min_le_left 1 x)

theorem skillScore_mem (cand req pref : List String) :
    0 ≤ skillScore cand req pref ∧ skillScore cand req pref ≤ 1 := by
  unfold skillScore
  split
  · exact ⟨zero_le_one, le_refl 1⟩
  · dsimp only
    split
    · exact ⟨clamp01_nonneg _, clamp01_le_one _⟩
    · exact ⟨clamp01_nonneg _, clamp01_le_one _⟩

theorem experienceScore_mem (years : Option ℚ) (minY : ℚ) (maxY : Option ℚ) :
    0 ≤ experienceScore years minY maxY ∧ experienceScore years minY maxY ≤ 1 := by
  unfold experienceScore
  match years with
  | none => norm_num
  | some y =>
    match maxY with
    | some mx =>
      dsimp only
      split
      · exact ⟨zero_le_one, le_refl 1⟩
      · split
        · next h1 h2 =>
          rw [qmax_eq_max]
          constructor
          · exact le_trans (by norm_num) (le_max_left _ _)
          · refine max_le (by norm_num) ?_
            have : 0 ≤ (5/100 : ℚ) * (y - mx) := by
              have := sub_nonneg.mpr (le_of_lt h2)
              positivity
            linarith
        · split
          · next h1 h2 h3 =>
            rw [qmax_eq_max]
            constructor
            · exact le_trans (by norm_num) (le_max_left _ _)
            · refine max_le (by norm_num) ?_
              have hy : y < minY := by
                rcases not_and_or.mp h1 with h | h
                · exact lt_of_not_le h
                · exact absurd (le_of_not_lt h2) (fun _ => h (le_of_not_lt h2))
              exact le_of_lt ((div_lt_one h3).mpr hy)
          · exact ⟨zero_le_one, le_refl 1⟩
    | none =>
      dsimp only
      split
      · exact ⟨zero_le_one, le_refl 1⟩
      · split
        · next h1 h2 =>
          rw [qmax_eq_max]
          constructor
          · exact le_trans (by norm_num) (le_max_left _ _)
          · refine max_le (by norm_num) ?_
            exact le_of_lt ((div_lt_one h2).mpr (lt_of_not_le h1))
        · exact ⟨zero_le_one, le_refl 1⟩

theorem educationScore_mem (candLevel reqLevel : Nat) :
    0 ≤ educationScore candLevel reqLevel ∧ educationScore candLevel reqLevel ≤ 1 := by
  unfold educationScore
  split
  · exact ⟨zero_le_one, le_refl 1⟩
  · split
    · norm_num
    · split
      · next h1 h2 h3 =>
        rw [qmax_eq_max]
        constructor
        · exact le_trans (by norm_num) (le_max_left _ _)
        · refine max_le (by norm_num) ?_
          have hr : (0 : ℚ) < (reqLevel : ℚ) := by exact_mod_cast h3
          refine (div_le_one hr).mpr ?_
          exact_mod_cast Nat.le_of_lt (Nat.lt_of_not_le h1)
      · exact ⟨zero_le_one, le_refl 1⟩

theorem list_sum_map_div (l : List (ℚ × ℚ)) (c : ℚ) :
    (l.map fun p => p.2 / c).sum = (l.map Prod.snd).sum / c := by
  induction l with
  | nil => simp
  | cons x xs ih => simp [ih, add_div]

theorem aggregate_normalized_sum (dims : List (ℚ × ℚ))
    (h : ((dims.map Prod.snd).sum) ≠ 0) :
    (dims.map fun p => p.2 / (dims.map Prod.snd).sum).sum = 1 := by
  rw [list_sum_map_div, div_self h]

theorem aggregate_mem (dims : List (ℚ × ℚ))
    (hs : ∀ p ∈ dims, 0 ≤ p.1 ∧ p.1 ≤ 1) (hw : ∀ p ∈ dims, 0 ≤ p.2) :
    0 ≤ aggregate dims ∧ aggregate dims ≤ 1 := by
  unfold aggregate
  dsimp only
  split
  · constructor
    · refine div_nonneg ?_ (by positivity)
      exact List.sum_nonneg fun x hx => by
        rcases List.mem_map.mp hx with ⟨p, hp, rfl⟩
        exact (hs p hp).1
    · rcases eq_or_ne dims [] with rfl | hne
      · norm_num
      · have hlen : (0 : ℚ) < (dims.length : ℚ) := by
          have := List.length_pos.mpr hne
          exact_mod_cast this
        refine (div_le_one hlen).mpr ?_
        have := List.sum_le_card_nsmul (dims.map Prod.fst) 1 ?_
        · simpa using this
        · intro x hx
          rcases List.mem_map.mp hx with ⟨p, hp, rfl⟩
          exact (hs p hp).2
  · next hne =>
    have hpos : 0 < (dims.map Prod.snd).sum := by
      rcases lt_or_eq_of_le (List.sum_nonneg fun x hx => by
        rcases List.mem_map.mp hx with ⟨p, hp, rfl⟩
        exact hw p hp) with h | h
      · exact h
      · exact absurd h.symm hne
    constructor
    · refine List.sum_nonneg fun x hx => ?_
      rcases List.mem_map.mp hx with ⟨p, hp, rfl⟩
      exact mul_nonneg (hs p hp).1 (div_nonneg (hw p hp) (le_of_lt hpos))
    · calc (dims.map fun p => p.1 * (p.2 / (dims.map Prod.snd).sum)).sum
          ≤ (dims.map fun p => p.2 / (dims.map Prod.snd).sum).sum := by
            refine List.sum_le_sum fun p hp => ?_
            exact mul_le_of_le_one_left
              (div_nonneg (hw p hp) (le_of_lt hpos)) (hs p hp).2
        _ = 1 := aggregate_normalized_sum dims hne

theorem matchDims_scores_mem (rawCos : List ℚ → List ℚ → ℚ) (c : CandidateProfile)
    (j : JobProfile) (w : Weights) :
    ∀ p ∈ matchDims rawCos c j w, 0 ≤ p.1 ∧ p.1 ≤ 1 := by
  intro p hp
  unfold matchDims at hp
  rw [List.mem_append] at hp
  rcases hp with hp | hp
  · simp only [List.mem_cons, List.not_mem_nil, or_false] at hp
    rcases hp with rfl | rfl | rfl
    · exact skillScore_mem _ _ _
    · exact experienceScore_mem _ _ _
    · exact educationScore_mem _ _
  · rcases hce : c.embedding with _ | v1 <;> rcases hje : j.embedding with _ | v2 <;>
      rw [hce, hje] at hp <;> simp only [List.mem_cons, List.not_mem_nil, or_false] at hp
    subst hp
    exact ⟨clamp01_nonneg _, clamp01_le_one _⟩

theorem matchDims_weights_nonneg (rawCos : List ℚ → List ℚ → ℚ) (c : CandidateProfile)
    (j : JobProfile) (w : Weights) (h1 : 0 ≤ w.skill) (h2 : 0 ≤ w.experience)
    (h3 : 0 ≤ w.education) (h4 : 0 ≤ w.semantic) :
    ∀ p ∈ matchDims rawCos c j w, 0 ≤ p.2 := by
  intro p hp
  unfold matchDims at hp
  rw [List.mem_append] at hp
  rcases hp with hp | hp
  · simp only [List.mem_cons, List.not_mem_nil, or_false] at hp
    rcases hp with rfl | rfl | rfl
    · exact h1
    · exact h2
    · exact h3
  · rcases hce : c.embedding with _ | v1 <;> rcases hje : j.embedding with _ | v2 <;>
      rw [hce, hje] at hp <;> simp only [List.mem_cons, List.not_mem_nil, or_false] at hp
    subst hp
    exact h4

/-- The worked scenario's candidate: skills python, react, sql; 4.5 years
of experience; a Bachelor degree; no embedding. -/
def scenarioCandidate : CandidateProfile :=
  ⟨["python", "react", "sql"], some (9/2), [⟨.bachelor, "cs", 2020⟩], none⟩

/-- The worked scenario's job: required python, sql, docker; preferred
react; experience range 3 to 6; minimum education Bachelor (level 3); no
embedding. -/
def scenarioJob : JobProfile :=
  ⟨["python", "sql", "docker"], ["react"], 3, some 6, 3, none⟩

/-- The default dimension weights of the scenario. -/
def scenarioWeights : Weights := ⟨4/10, 3/10, 2/10, 1/10⟩

/-- Claim C1: for every scored candidate, every dimension score lies in
[0,1]; with nonnegative weights the overall score is the convex
combination of the dimension scores under the normalized weights (which
sum to 1 whenever the weight sum is nonzero); therefore the overall score
lies in [0,1]. -/
theorem overall_score_convex (rawCos : List ℚ → List ℚ → ℚ) (c : CandidateProfile)
    (j : JobProfile) (w : Weights) (h1 : 0 ≤ w.skill) (h2 : 0 ≤ w.experience)
    (h3 : 0 ≤ w.education) (h4 : 0 ≤ w.semantic) :
    (∀ p ∈ matchDims rawCos c j w, 0 ≤ p.1 ∧ p.1 ≤ 1) ∧
    (((matchDims rawCos c j w).map Prod.snd).sum ≠ 0 →
      ((matchDims rawCos c j w).map
          fun p => p.2 / ((matchDims rawCos c j w).map Prod.snd).sum).sum = 1 ∧
      overallScore rawCos c j w =
        ((matchDims rawCos c j w).map
          fun p => p.1 * (p.2 / ((matchDims rawCos c j w).map Prod.snd).sum)).sum) ∧
    0 ≤ overallScore rawCos c j w ∧ overallScore rawCos c j w ≤ 1 := by
  refine ⟨matchDims_scores_mem rawCos c j w, fun hne => ⟨aggregate_normalized_sum _ hne, ?_⟩, ?_⟩
  · unfold overallScore aggregate
    rw [if_neg hne]
  · exact aggregate_mem _ (matchDims_scores_mem rawCos c j w)
      (matchDims_weights_nonneg rawCos c j w h1 h2 h3 h4)

/-- Witness for claim C1 at the worked scenario's concrete profiles and
weights. -/
theorem overall_score_convex_witness :
    (∀ p ∈ matchDims (fun _ _ => 0) scenarioCandidate scenarioJob scenarioWeights,
        0 ≤ p.1 ∧ p.1 ≤ 1) ∧
    (((matchDims (fun _ _ => 0) scenarioCandidate scenarioJob scenarioWeights).map
        Prod.snd).sum ≠ 0 →
      ((matchDims (fun _ _ => 0) scenarioCandidate scenarioJob scenarioWeights).map
          fun p => p.2 / ((matchDims (fun _ _ => 0) scenarioCandidate scenarioJob
            scenarioWeights).map Prod.snd).sum).sum = 1 ∧
      overallScore (fun _ _ => 0) scenarioCandidate scenarioJob scenarioWeights =
        ((matchDims (fun _ _ => 0) scenarioCandidate scenarioJob scenarioWeights).map
          fun p => p.1 * (p.2 / ((matchDims (fun _ _ => 0) scenarioCandidate scenarioJob
            scenarioWeights).map Prod.snd).sum)).sum) ∧
    0 ≤ overallScore (fun _ _ => 0) scenarioCandidate scenarioJob scenarioWeights ∧
      overallScore (fun _ _ => 0) scenarioCandidate scenarioJob scenarioWeights ≤ 1 :=
  overall_score_convex (fun _ _ => 0) scenarioCandidate scenarioJob scenarioWeights
    (by norm_num [scenarioWeights]) (by norm_num [scenarioWeights])
    (by norm_num [scenarioWeights]) (by norm_num [scenarioWeights])

/-- Claim C2: the worked scenario.  The candidate with skills python,
react, sql, 4.5 years and a Bachelor degree, matched against the job
requiring python, sql, docker (preferring react, experience 3 to 6,
Bachelor minimum) under weights 0.4/0.3/0.2/0.1 with no embeddings:
matched required skills are python and sql, docker is missing, the skill
score is 2/3 * 0.85 + 1.0 * 0.15 = 43/60 (about 0.717), experience and
education score 1.0, the absent semantic dimension's weight is
redistributed so the three normalized weights are 4/9, 1/3, 2/9, and the
overall score is 118/135, approximately 0.874. -/
theorem worked_scenario :
    matchedSkills scenarioCandidate.skills scenarioJob.required_skills = ["python", "sql"] ∧
    missingSkills scenarioCandidate.skills scenarioJob.required_skills = ["docker"] ∧
    skillScore scenarioCandidate.skills scenarioJob.required_skills
        scenarioJob.preferred_skills = (2/3) * (85/100) + 1 * (15/100) ∧
    skillScore scenarioCandidate.skills scenarioJob.required_skills
        scenarioJob.preferred_skills = 43/60 ∧
    |skillScore scenarioCandidate.skills scenarioJob.required_skills
        scenarioJob.preferred_skills - 717/1000| < 1/1000 ∧
    experienceScore scenarioCandidate.total_experience_years scenarioJob.min_years
        scenarioJob.max_years = 1 ∧
    educationScore (candidateLevel scenarioCandidate.education)
        scenarioJob.min_education_level = 1 ∧
    ((matchDims (fun _ _ => 0) scenarioCandidate scenarioJob scenarioWeights).map
        fun p => p.2 / ((matchDims (fun _ _ => 0) scenarioCandidate scenarioJob
          scenarioWeights).map Prod.snd).sum) = [4/9, 1/3, 2/9] ∧
    overallScore (fun _ _ => 0) scenarioCandidate scenarioJob scenarioWeights =
      (43/60) * (4/9) + 1 * (1/3) + 1 * (2/9) ∧
    overallScore (fun _ _ => 0) scenarioCandidate scenarioJob scenarioWeights = 118/135 ∧
    |overallScore (fun _ _ => 0) scenarioCandidate scenarioJob scenarioWeights
      - 874/1000| < 1/1000 := by
  have hreq : matchedSkills scenarioCandidate.skills scenarioJob.required_skills
      = ["python", "sql"] := by decide
  have hpref : matchedSkills scenarioCandidate.skills scenarioJob.preferred_skills
      = ["react"] := by decide
  have hmiss : missingSkills scenarioCandidate.skills scenarioJob.required_skills
      = ["docker"] := by decide
  have hreq2 : matchedSkills ["python", "react", "sql"] ["python", "sql", "docker"]
      = ["python", "sql"] := by decide
  have hpref2 : matchedSkills ["python", "react", "sql"] ["react"] = ["react"] := by decide
  have hskill : skillScore scenarioCandidate.skills scenarioJob.required_skills
      scenarioJob.preferred_skills = 43/60 := by
    norm_num [skillScore, clamp01, qmax, qmin, hreq2, hpref2, scenarioCandidate, scenarioJob]
  have hskill2 : skillScore ["python", "react", "sql"] ["python", "sql", "docker"]
      ["react"] = 43/60 := hskill
  have hexp : experienceScore scenarioCandidate.total_experience_years
      scenarioJob.min_years scenarioJob.max_years = 1 := by
    norm_num [experienceScore, scenarioCandidate, scenarioJob]
  have hexp2 : experienceScore (some (9/2)) 3 (some 6) = 1 := hexp
  have hedu : educationScore (candidateLevel scenarioCandidate.education)
      scenarioJob.min_education_level = 1 := by
    norm_num [educationScore, candidateLevel, Degree.level, scenarioCandidate, scenarioJob]
  have hedu2 : educationScore (candidateLevel [⟨.bachelor, "cs", 2020⟩]) 3 = 1 := hedu
  have hover : overallScore (fun _ _ => 0) scenarioCandidate scenarioJob scenarioWeights
      = 118/135 := by
    norm_num [overallScore, aggregate, matchDims, scenarioCandidate, scenarioJob,
      scenarioWeights, hskill2, hexp2, hedu2]
  refine ⟨hreq, hmiss, ?_, hskill, ?_, hexp, hedu, ?_, ?_, hover, ?_⟩
  · rw [hskill]; norm_num
  · rw [hskill, abs_sub_lt_iff]; constructor <;> norm_num
  · norm_num [matchDims, scenarioCandidate, scenarioJob, scenarioWeights]
  · rw [hover]; norm_num
  · rw [hover, abs_sub_lt_iff]; constructor <;> norm_num

/-- Claim C3: the aggregator is invariant under uniform positive rescaling
of the weights, because it divides each weight by the weight sum before
combining; and when the weight sum is zero the overall score is the
unweighted mean of the available dimension scores. -/
theorem aggregate_weight_scaling (dims : List (ℚ × ℚ)) (c : ℚ) (hc : 0 < c) :
    aggregate (dims.map fun p => (p.1, c * p.2)) = aggregate dims ∧
    ((dims.map Prod.snd).sum = 0 →
      aggregate dims = (dims.map Prod.fst).sum / (dims.length : ℚ)) := by
  constructor
  · have hsum : ((dims.map fun p => (p.1, c * p.2)).map Prod.snd).sum
        = c * (dims.map Prod.snd).sum := by
      rw [List.map_map]
      exact List.sum_map_mul_left dims Prod.snd c
    unfold aggregate
    rw [hsum]
    by_cases h0 : (dims.map Prod.snd).sum = 0
    · rw [h0, mul_zero, if_pos rfl, if_pos rfl, List.map_map, List.length_map]
      rfl
    · have h0' : c * (dims.map Prod.snd).sum ≠ 0 := mul_ne_zero (ne_of_gt hc) h0
      rw [if_neg h0', if_neg h0, List.map_map]
      have hfun : ((fun p : ℚ × ℚ => p.1 * (p.2 / (c * (dims.map Prod.snd).sum))) ∘
          fun p : ℚ × ℚ => (p.1, c * p.2))
          = fun p : ℚ × ℚ => p.1 * (p.2 / (dims.map Prod.snd).sum) := by
        funext p
        show p.1 * (c * p.2 / (c * (dims.map Prod.snd).sum)) = _
        rw [mul_div_mul_left _ _ (ne_of_gt hc)]
      rw [hfun]
  · intro h
    unfold aggregate
    rw [if_pos h]

/-- Witness for claim C3: the default weight record 0.4/0.3/0.2/0.1 scaled
by 10 into 4/3/2/1 yields the same overall score. -/
theorem aggregate_weight_scaling_witness :
    aggregate ([(43/60, 4/10), (1, 3/10), (1, 2/10), (1/2, 1/10)].map
        fun p => (p.1, 10 * p.2))
      = aggregate [(43/60, 4/10), (1, 3/10), (1, 2/10), (1/2, 1/10)] ∧
    (([(43/60, 4/10), (1, 3/10), (1, 2/10), ((1:ℚ)/2, (1:ℚ)/10)].map Prod.snd).sum = 0 →
      aggregate [(43/60, 4/10), (1, 3/10), (1, 2/10), (1/2, 1/10)]
        = ([(43/60, 4/10), (1, 3/10), (1, 2/10), ((1:ℚ)/2, (1:ℚ)/10)].map
            Prod.fst).sum / 4) :=
  aggregate_weight_scaling [(43/60, 4/10), (1, 3/10), (1, 2/10), (1/2, 1/10)] 10
    (by norm_num)

/-- Counterexample for claim C4: with range 3 to 6, the experience scores
at 14 and 15 years are both exactly the floor 0.6, so the score is not
strictly decreasing as years move away from the range. -/
theorem experience_strict_decrease_counterexample :
    (6:ℚ) < 14 ∧ (14:ℚ) < 15 ∧
    experienceScore (some 14) 3 (some 6) = 3/5 ∧
    experienceScore (some 15) 3 (some 6) = 3/5 ∧
    ¬ experienceScore (some 15) 3 (some 6) < experienceScore (some 14) 3 (some 6) := by
  have h14 : experienceScore (some 14) 3 (some 6) = 3/5 := by
    norm_num [experienceScore, qmax]
  have h15 : experienceScore (some 15) 3 (some 6) = 3/5 := by
    norm_num [experienceScore, qmax]
  exact ⟨by norm_num, by norm_num, h14, h15, by rw [h14, h15]; exact lt_irrefl _⟩

/-- Claim C4 (amended): the experience score is exactly 1.0 inside the
range (inclusive, or above the minimum of an unbounded range), equals
max(0.6, 1 - 0.05*(years - max)) when overqualified and
max(0.1, years/min) when underqualified with min > 0, never drops below
the floors 0.6 (over) and 0.1 (under), is non-increasing as years move
away from the range, and is strictly decreasing while it is still above
the corresponding floor. -/
theorem experience_score_policy (y y2 minY mx : ℚ) :
    (minY ≤ y → y ≤ mx → experienceScore (some y) minY (some mx) = 1) ∧
    (minY ≤ y → experienceScore (some y) minY none = 1) ∧
    (mx < y →
      experienceScore (some y) minY (some mx) = qmax (6/10) (1 - (5/100) * (y - mx)) ∧
      6/10 ≤ experienceScore (some y) minY (some mx)) ∧
    (y < minY → 0 < minY → minY ≤ mx →
      experienceScore (some y) minY (some mx) = qmax (1/10) (y / minY) ∧
      1/10 ≤ experienceScore (some y) minY (some mx)) ∧
    (mx < y → y ≤ y2 →
      experienceScore (some y2) minY (some mx) ≤ experienceScore (some y) minY (some mx)) ∧
    (mx < y → y < y2 → 6/10 < experienceScore (some y) minY (some mx) →
      experienceScore (some y2) minY (some mx) < experienceScore (some y) minY (some mx)) ∧
    (y2 ≤ y → y < minY → 0 < minY → minY ≤ mx →
      experienceScore (some y2) minY (some mx) ≤ experienceScore (some y) minY (some mx)) ∧
    (y2 < y → y < minY → 0 < minY → minY ≤ mx →
      1/10 < experienceScore (some y) minY (some mx) →
      experienceScore (some y2) minY (some mx) < experienceScore (some y) minY (some mx)) := by
  have hover : ∀ z, mx < z →
      experienceScore (some z) minY (some mx) = qmax (6/10) (1 - (5/100) * (z - mx)) := by
    intro z hz
    simp only [experienceScore]
    rw [if_neg (fun hand => absurd hand.2 (not_le.mpr hz)), if_pos hz]
  have hunder : ∀ z, z < minY → 0 < minY → minY ≤ mx →
      experienceScore (some z) minY (some mx) = qmax (1/10) (z / minY) := by
    intro z hz hm hmm
    simp only [experienceScore]
    rw [if_neg (fun hand => absurd hand.1 (not_le.mpr hz)),
      if_neg (not_lt.mpr (le_of_lt (lt_of_lt_of_le hz hmm))), if_pos hm]
  refine ⟨?_, ?_, ?_, ?_, ?_, ?_, ?_, ?_⟩
  · intro h1 h2
    simp only [experienceScore]
    rw [if_pos ⟨h1, h2⟩]
  · intro h1
    simp only [experienceScore]
    rw [if_pos h1]
  · intro h
    refine ⟨hover y h, ?_⟩
    rw [hover y h, qmax_eq_max]
    exact le_max_left _ _
  · intro h hm hmm
    refine ⟨hunder y h hm hmm, ?_⟩
    rw [hunder y h hm hmm, qmax_eq_max]
    exact le_max_left _ _
  · intro h1 h2
    rw [hover y h1, hover y2 (lt_of_lt_of_le h1 h2), qmax_eq_max, qmax_eq_max]
    refine max_le_max (le_refl _) ?_
    have : (5/100 : ℚ) * (y - mx) ≤ (5/100) * (y2 - mx) :=
      mul_le_mul_of_nonneg_left (by linarith) (by norm_num)
    linarith
  · intro h1 h2 h3
    rw [hover y h1, qmax_eq_max] at h3
    have hfy : 6/10 < 1 - (5/100 : ℚ) * (y - mx) := by
      rcases lt_max_iff.mp h3 with h | h
      · exact absurd h (lt_irrefl _)
      · exact h
    rw [hover y h1, hover y2 (lt_trans h1 h2), qmax_eq_max, qmax_eq_max,
      max_eq_right (le_of_lt hfy)]
    refine max_lt hfy ?_
    have : (5/100 : ℚ) * (y - mx) < (5/100) * (y2 - mx) :=
      mul_lt_mul_of_pos_left (by linarith) (by norm_num)
    linarith
  · intro h1 h2 hm hmm
    rw [hunder y h2 hm hmm, hunder y2 (lt_of_le_of_lt h1 h2) hm hmm,
      qmax_eq_max, qmax_eq_max]
    refine max_le_max (le_refl _) ?_
    gcongr
  · intro h1 h2 hm hmm h3
    rw [hunder y h2 hm hmm, qmax_eq_max] at h3
    have hfy : 1/10 < y / minY := by
      rcases lt_max_iff.mp h3 with h | h
      · exact absurd h (lt_irrefl _)
      · exact h
    rw [hunder y h2 hm hmm, hunder y2 (lt_trans h1 h2) hm hmm, qmax_eq_max,
      qmax_eq_max, max_eq_right (le_of_lt hfy)]
    refine max_lt hfy ?_
    gcongr

/-- Witness for claim C4 at range 3 to 6: score 1.0 at 4 years (and at 7
years with an unbounded range), the over and under formulas and floors at
7 and 2 years, and strict decreases from 7 to 8 and from 2 to 1 years. -/
theorem experience_score_policy_witness :
    experienceScore (some 4) 3 (some 6) = 1 ∧
    experienceScore (some 7) 3 none = 1 ∧
    experienceScore (some 7) 3 (some 6) = qmax (6/10) (1 - (5/100) * (7 - 6)) ∧
    6/10 ≤ experienceScore (some 7) 3 (some 6) ∧
    experienceScore (some 2) 3 (some 6) = qmax (1/10) (2 / 3) ∧
    1/10 ≤ experienceScore (some 2) 3 (some 6) ∧
    experienceScore (some 8) 3 (some 6) ≤ experienceScore (some 7) 3 (some 6) ∧
    experienceScore (some 8) 3 (some 6) < experienceScore (some 7) 3 (some 6) ∧
    experienceScore (some 1) 3 (some 6) ≤ experienceScore (some 2) 3 (some 6) ∧
    experienceScore (some 1) 3 (some 6) < experienceScore (some 2) 3 (some 6) := by
  obtain ⟨pin, pun, pov, pud, pmo, pso, pmu, psu⟩ := experience_score_policy 7 8 3 6
  obtain ⟨qin, qun, qov, qud, qmo, qso, qmu, qsu⟩ := experience_score_policy 2 1 3 6
  have hov := pov (by norm_num)
  have hud := qud (by norm_num) (by norm_num) (by norm_num)
  have h67 : (6:ℚ)/10 < experienceScore (some 7) 3 (some 6) := by
    rw [hov.1]; norm_num [qmax]
  have h12 : (1:ℚ)/10 < experienceScore (some 2) 3 (some 6) := by
    rw [hud.1]; norm_num [qmax]
  refine ⟨(experience_score_policy 4 4 3 6).1 (by norm_num) (by norm_num),
    pun (by norm_num), hov.1, hov.2, hud.1, hud.2,
    pmo (by norm_num) (by norm_num), pso (by norm_num) (by norm_num) h67,
    qmu (by norm_num) (by norm_num) (by norm_num) (by norm_num),
    qsu (by norm_num) (by norm_num) (by norm_num) (by norm_num) h12⟩

theorem mem_insertDesc {x z : ScoredResult} {l : List ScoredResult} :
    z ∈ insertDesc x l ↔ z = x ∨ z ∈ l := by
  induction l with
  | nil => simp [insertDesc]
  | cons y ys ih =>
    simp only [insertDesc]
    split
    · simp [List.mem_cons]
    · simp only [List.mem_cons, ih]
      tauto

theorem pairwise_insertDesc (x : ScoredResult) {l : List ScoredResult}
    (h : l.Pairwise fun a b => b.overall_score ≤ a.overall_score) :
    (insertDesc x l).Pairwise fun a b => b.overall_score ≤ a.overall_score := by
  induction h with
  | nil => simp [insertDesc]
  | @cons y ys hrel hpw ih =>
    simp only [insertDesc]
    split
    · next hxy =>
      refine List.Pairwise.cons ?_ (List.Pairwise.cons hrel hpw)
      intro z hz
      rcases List.mem_cons.mp hz with rfl | hz
      · exact hxy
      · exact le_trans (hrel z hz) hxy
    · next hxy =>
      refine List.Pairwise.cons ?_ ih
      intro z hz
      rcases mem_insertDesc.mp hz with rfl | hz
      · exact le_of_lt (lt_of_not_le hxy)
      · exact hrel z hz

theorem sortDesc_pairwise (l : List ScoredResult) :
    (sortDesc l).Pairwise fun a b => b.overall_score ≤ a.overall_score := by
  induction l with
  | nil => exact List.Pairwise.nil
  | cons x xs ih => exact pairwise_insertDesc x ih

theorem filter_insertDesc (x : ScoredResult) (l : List ScoredResult) (v : ℚ) :
    (insertDesc x l).filter (fun r => decide (r.overall_score = v)) =
      if x.overall_score = v then
        x :: l.filter (fun r => decide (r.overall_score = v))
      else l.filter (fun r => decide (r.overall_score = v)) := by
  induction l with
  | nil => by_cases h : x.overall_score = v <;> simp [insertDesc, h]
  | cons y ys ih =>
    simp only [insertDesc]
    split
    · by_cases h : x.overall_score = v <;>
        by_cases hy : y.overall_score = v <;> simp [List.filter_cons, h, hy]
    · next hlt =>
      have hyx : x.overall_score < y.overall_score := lt_of_not_le hlt
      by_cases h : x.overall_score = v
      · have hy : ¬ y.overall_score = v := by
          rw [← h]
          exact ne_of_gt hyx
        simp [List.filter_cons, hy, ih, h]
      · by_cases hy : y.overall_score = v <;> simp [List.filter_cons, hy, ih, h]

theorem sortDesc_filter (l : List ScoredResult) (v : ℚ) :
    (sortDesc l).filter (fun r => decide (r.overall_score = v)) =
      l.filter (fun r => decide (r.overall_score = v)) := by
  induction l with
  | nil => rfl
  | cons x xs ih =>
    simp only [sortDesc, filter_insertDesc, ih]
    by_cases h : x.overall_score = v <;> simp [List.filter_cons, h]

theorem insertDesc_perm (x : ScoredResult) (l : List ScoredResult) :
    (insertDesc x l).Perm (x :: l) := by
  induction l with
  | nil => exact List.Perm.refl _
  | cons y ys ih =>
    simp only [insertDesc]
    split
    · exact List.Perm.refl _
    · exact List.Perm.trans (List.Perm.cons y ih) (List.Perm.swap x y ys)

theorem sortDesc_perm (l : List ScoredResult) : (sortDesc l).Perm l := by
  induction l with
  | nil => exact List.Perm.refl _
  | cons x xs ih =>
    exact List.Perm.trans (insertDesc_perm x (sortDesc xs)) (List.Perm.cons x ih)

theorem sortDesc_length (l : List ScoredResult) : (sortDesc l).length = l.length :=
  (sortDesc_perm l).length_eq

theorem rankResults_map_fst (l : List ScoredResult) :
    (rankResults l).map Prod.fst = List.range' 1 l.length := by
  rw [rankResults, List.map_map]
  have h1 : (Prod.fst ∘ fun p : Nat × ScoredResult => (p.1 + 1, p.2))
      = fun p : Nat × ScoredResult => p.1 + 1 := rfl
  have h2 : ((sortDesc l).enum.map fun p : Nat × ScoredResult => p.1 + 1)
      = ((sortDesc l).enum.map Prod.fst).map fun i => i + 1 := by
    rw [List.map_map]
    rfl
  rw [h1, h2, List.enum_map_fst, sortDesc_length, List.range'_eq_map_range]
  exact List.map_congr_left fun i _ => Nat.add_comm i 1

theorem rankResults_length (l : List ScoredResult) :
    (rankResults l).length = l.length := by
  simp [rankResults, sortDesc_length]

/-- Claim C5: for every session's result list, the sorted results are in
descending order of overall score, results with equal overall score keep
their original order (the filter at every score value is unchanged), the
sorted list is a permutation of the input, and the assigned ranks are the
contiguous 1-based sequence with no gaps and no duplicates. -/
theorem ranking_sorted_stable_contiguous (l : List ScoredResult) :
    (sortDesc l).Pairwise (fun a b => b.overall_score ≤ a.overall_score) ∧
    (∀ v : ℚ, (sortDesc l).filter (fun r => decide (r.overall_score = v))
      = l.filter (fun r => decide (r.overall_score = v))) ∧
    (sortDesc l).Perm l ∧
    (rankResults l).map Prod.fst = List.range' 1 l.length :=
  ⟨sortDesc_pairwise l, sortDesc_filter l, sortDesc_perm l, rankResults_map_fst l⟩

/-- Claim C6: with an empty required skill set the skill score is 1.0,
regardless of the candidate's skills and of any preferred skills. -/
theorem skill_score_empty_required (cand pref : List String) :
    skillScore cand [] pref = 1 := rfl

/-- Claim C7: the education score is 1.0 exactly when the candidate's
effective level meets or exceeds the required level, and is exactly 0.7
one level short; the effective level of an empty education list is 0 and
the degree hierarchy is Certificate 1 up to PhD 5. -/
theorem education_score_spec (candLevel reqLevel : Nat) :
    (educationScore candLevel reqLevel = 1 ↔ reqLevel ≤ candLevel) ∧
    (candLevel + 1 = reqLevel → educationScore candLevel reqLevel = 7/10) ∧
    candidateLevel [] = 0 ∧
    Degree.level .certificate = 1 ∧ Degree.level .diploma = 2 ∧
    Degree.level .bachelor = 3 ∧ Degree.level .master = 4 ∧ Degree.level .phd = 5 := by
  refine ⟨?_, ?_, rfl, rfl, rfl, rfl, rfl, rfl⟩
  · constructor
    · intro h
      by_contra hno
      have hlt : candLevel < reqLevel := Nat.lt_of_not_le hno
      have hpos : 0 < reqLevel := Nat.lt_of_le_of_lt (Nat.zero_le candLevel) hlt
      unfold educationScore at h
      rw [if_neg hno] at h
      by_cases h2 : candLevel + 1 = reqLevel
      · rw [if_pos h2] at h
        norm_num at h
      · rw [if_neg h2, if_pos hpos, qmax_eq_max] at h
        have hdiv : (candLevel : ℚ) / (reqLevel : ℚ) < 1 := by
          rw [div_lt_one (by exact_mod_cast hpos)]
          exact_mod_cast hlt
        exact absurd h (ne_of_lt (max_lt (by norm_num) hdiv))
    · intro h
      unfold educationScore
      rw [if_pos h]
  · intro h
    unfold educationScore
    rw [if_neg (by omega), if_pos h]

/-- Witness for claim C7 at candidate level 2 against required level 3:
the score is not 1.0 (3 is not at most 2) and is exactly 0.7. -/
theorem education_score_spec_witness :
    (educationScore 2 3 = 1 ↔ 3 ≤ 2) ∧
    educationScore 2 3 = 7/10 ∧
    candidateLevel [] = 0 ∧
    Degree.level .certificate = 1 ∧ Degree.level .diploma = 2 ∧
    Degree.level .bachelor = 3 ∧ Degree.level .master = 4 ∧ Degree.level .phd = 5 := by
  obtain ⟨h1, h2, h3, h4, h5, h6, h7, h8⟩ := education_score_spec 2 3
  exact ⟨h1, h2 rfl, h3, h4, h5, h6, h7, h8⟩

/-- Claim C8: with a valid job, per-candidate scoring failures never fail
the session: the run completes, the skipped count is exactly the number
of candidates whose scoring failed, and the ranked list is the ranked
sort of exactly the successfully scored candidates, with contiguous
1-based ranks. -/
theorem session_partial_failure (score : Nat → Option ℚ) (cands : List Nat) :
    (runSession score true cands).status = .completed ∧
    (runSession score true cands).status ≠ .failed ∧
    (runSession score true cands).skipped
      = (cands.filter fun c => (score c).isNone).length ∧
    (runSession score true cands).ranked
      = rankResults (cands.filterMap fun c => (score c).map fun s => ScoredResult.mk c s) ∧
    (runSession score true cands).ranked.length
      = (cands.filterMap fun c => (score c).map fun s => ScoredResult.mk c s).length ∧
    (runSession score true cands).ranked.map Prod.fst
      = List.range' 1 (cands.filterMap fun c =>
          (score c).map fun s => ScoredResult.mk c s).length := by
  have hrun : runSession score true cands =
      { status := .completed,
        ranked := rankResults (cands.filterMap fun c =>
          (score c).map fun s => ScoredResult.mk c s),
        skipped := (cands.filter fun c => (score c).isNone).length } := by
    simp [runSession]
  rw [hrun]
  refine ⟨rfl, by simp, rfl, rfl, rankResults_length _, rankResults_map_fst _⟩

/-- Claim C9: a session history that starts at pending and follows the
allowed transitions is exactly a prefix of pending, processing, completed
or of pending, processing, failed; the terminal states completed and
failed admit no outgoing transition. -/
theorem session_state_machine (t : List MatchStatus) (h : ValidTrace t) :
    (t = [.pending] ∨ t = [.pending, .processing] ∨
      t = [.pending, .processing, .completed] ∨
      t = [.pending, .processing, .failed]) ∧
    (∀ s s' : MatchStatus, s = .completed ∨ s = .failed → statusStep s s' = false) := by
  obtain ⟨hh, hc⟩ := h
  constructor
  · cases t with
    | nil => simp at hh
    | cons a t1 =>
      have ha : a = .pending := by
        simpa using hh
      subst ha
      cases t1 with
      | nil => exact Or.inl rfl
      | cons b t2 =>
        obtain ⟨hab, hc2⟩ := List.chain'_cons.mp hc
        have hb : b = .processing := by
          cases b <;> first | rfl | exact absurd hab (by decide)
        subst hb
        cases t2 with
        | nil => exact Or.inr (Or.inl rfl)
        | cons c t3 =>
          obtain ⟨hbc, hc3⟩ := List.chain'_cons.mp hc2
          have hcv : c = .completed ∨ c = .failed := by
            cases c <;> first
              | exact Or.inl rfl
              | exact Or.inr rfl
              | exact absurd hbc (by decide)
          cases t3 with
          | nil =>
            rcases hcv with rfl | rfl
            · exact Or.inr (Or.inr (Or.inl rfl))
            · exact Or.inr (Or.inr (Or.inr rfl))
          | cons d t4 =>
            obtain ⟨hcd, _⟩ := List.chain'_cons.mp hc3
            rcases hcv with rfl | rfl
            · exact absurd hcd (by cases d <;> decide)
            · exact absurd hcd (by cases d <;> decide)
  · intro s s' hs
    rcases hs with rfl | rfl <;> cases s' <;> rfl

/-- Witness for claim C9 at the happy-path trace pending, processing,
completed. -/
theorem session_state_machine_witness :
    (([MatchStatus.pending, .processing, .completed] = [.pending] ∨
      [MatchStatus.pending, .processing, .completed] = [.pending, .processing] ∨
      [MatchStatus.pending, .processing, .completed]
        = [.pending, .processing, .completed] ∨
      [MatchStatus.pending, .processing, .completed]
        = [.pending, .processing, .failed])) ∧
    (∀ s s' : MatchStatus, s = .completed ∨ s = .failed → statusStep s s' = false) :=
  session_state_machine [.pending, .processing, .completed]
    ⟨rfl, by simp [List.chain'_cons, statusStep]⟩

/-- Claim C10: the Run button's disabled state does not depend on the
weight configuration; the configuration is passed unchanged in the
match-run payload; the shipped default weights sum to exactly 1.0; and
the warning chip renders exactly when the total weight differs from 1.0
by more than 0.01. -/
theorem matching_page_run_gating :
    (∀ s : MatchingPageState, ∀ c : MatchConfig,
      runDisabled ⟨s.selectedJob, s.matching, s.matchMode, s.selectedCandidates, c⟩
        = runDisabled s) ∧
    (∀ s : MatchingPageState, (handleRunPayload s).config = some s.config) ∧
    (∀ s : MatchingPageState, (handleRunPayload s).job_id = s.selectedJob) ∧
    totalWeight defaultConfig = 1 ∧
    weightWarning defaultConfig = false ∧
    (∀ c : MatchConfig, weightWarning c = true ↔ abs (totalWeight c - 1) > 1/100) := by
  refine ⟨fun s c => rfl, fun s => rfl, fun s => rfl, ?_, ?_, fun c => ?_⟩
  · norm_num [totalWeight, defaultConfig]
  · have h : totalWeight defaultConfig = 1 := by norm_num [totalWeight, defaultConfig]
    simp [weightWarning, h]
  · simp [weightWarning]
